import Mathlib

/-!
Networking: message codec, connection state machine, server dispatch

A shallow embedding of `Message.h`, `Connection.h` and `Server.h`.

* Bytes are `Fin 256`; a `std::vector<uint8_t>` is a `List Byte`.
* `uint32_t` / `uint64_t` fields are natural numbers, reduced modulo `2^32` / `2^64`
  at every place where the C++ code stores into such a field.
* A call whose behaviour C++ leaves undefined (a `memcpy` that reads outside a vector)
  ends in `Outcome.undefined`; it is not given a made-up result.
* An asynchronous operation is an entry in the list of outstanding operations of a
  connection; its completion handler is a function on the connection state that is
  run when the reactor delivers the completion.
-/

namespace Network

/-! ## Message.h -/

abbrev Byte := Fin 256

/-- Number of values of a `uint32_t`. -/
def U32 : Nat := 2 ^ 32

/-- Number of values of a `uint64_t`. -/
def U64 : Nat := 2 ^ 64

/-- The `struct MessageHeader { T id; uint32_t size; }`. -/
structure MessageHeader (T : Type) where
  id : T
  size : Nat := 0
deriving DecidableEq

/-- The `struct Message { MessageHeader<T> header; std::vector<uint8_t> body; }`. -/
structure Message (T : Type) where
  header : MessageHeader T
  body : List Byte := []
deriving DecidableEq

/-- The call `std::vector<uint8_t>::resize(n)`: keep the first `n` bytes, pad with zero bytes. -/
def resize (v : List Byte) (n : Nat) : List Byte :=
  v.take n ++ List.replicate (n - v.length) 0

/-- The call `std::memcpy(v.data() + i, &data, sizeof data)`: overwrite the bytes of `v`
from offset `i` on with the object representation `data`. -/
def memcpyInto (v : List Byte) (i : Nat) (data : List Byte) : List Byte :=
  v.take i ++ data ++ v.drop (i + data.length)

/-- How a call ends, as its caller sees it: it returns, an exception reaches the
caller, or the call has undefined behaviour and C++ gives it no meaning. -/
inductive Outcome (α : Type)
  | returned (value : α)
  | thrown
  | undefined
deriving DecidableEq

/-- Sequencing of calls: the next call runs only after the first has returned. -/
def Outcome.bind {α β : Type} : Outcome α → (α → Outcome β) → Outcome β
  | Outcome.returned a, f => f a
  | Outcome.thrown, _ => Outcome.thrown
  | Outcome.undefined, _ => Outcome.undefined

/-- The call `std::memcpy(&data, v.data() + i, n)`: the `n` bytes of `v` from offset `i`
on.  The source range must lie inside the vector; a read past its end is undefined
behaviour and gives `none`. -/
def memcpyFrom (v : List Byte) (i n : Nat) : Option (List Byte) :=
  if i + n ≤ v.length then some ((v.drop i).take n) else none

/-- The operator `Message::operator<<` for a value whose object representation is `data`
(so `sizeof(DataType) = data.length`).  The allocation in `resize` is taken to succeed;
after it the `memcpy` destination lies inside the body. -/
def Message.append {T : Type} (msg : Message T) (data : List Byte) : Message T :=
  let i := msg.header.size
  let body := resize msg.body (i + data.length)
  let body := memcpyInto body i data
  { header := { msg.header with size := body.length % U32 }, body := body }

/-- The operator `Message::operator>>` for a `DataType` of `n` bytes: the message
afterwards and the bytes copied into `data`.  `i` is a `uint32_t`, so the subtraction
wraps modulo `2^32`.  The body of the operator has no check, no `throw` and no error
result: it either returns or, when the `memcpy` reads outside the body, is undefined. -/
def Message.extract {T : Type} (msg : Message T) (n : Nat) :
    Outcome (Message T × List Byte) :=
  let i := (msg.header.size + U32 - n % U32) % U32
  match memcpyFrom msg.body i n with
  | none => Outcome.undefined
  | some data =>
    let body := resize msg.body i
    Outcome.returned
      ({ header := { msg.header with size := body.length % U32 }, body := body }, data)

/-- Appending `v1 .. vn` with `operator<<`, in that order. -/
def appendAll {T : Type} (msg : Message T) : List (List Byte) → Message T
  | [] => msg
  | v :: vs => appendAll (msg.append v) vs

/-- Extracting with `operator>>` values of the given sizes, in the order of the list:
the message afterwards and the extracted values in extraction order. -/
def extractAll {T : Type} (msg : Message T) :
    List Nat → Outcome (Message T × List (List Byte))
  | [] => Outcome.returned (msg, [])
  | n :: ns =>
    (msg.extract n).bind fun r =>
      (extractAll r.1 ns).bind fun rs => Outcome.returned (rs.1, r.2 :: rs.2)

/-! ## Message.h: `TsQueue` under thread interleaving -/

/-- Where the thread executing `TsQueue::Wait` stands. -/
inductive WaitPc
  /-- at `while (Empty())`, about to take `m_QueueMutex` inside `Empty` -/
  | callEmpty
  /-- inside `Empty`, holding `m_QueueMutex`, about to read `m_Queue.empty()` -/
  | readEmpty
  /-- after `Empty()` has returned true, about to take `m_WaitingMutex` -/
  | lockWaiting
  /-- holding `m_WaitingMutex`, about to call `m_WaitUntilNotEmpty.wait(ul)` -/
  | callWait
  /-- inside `wait`: `m_WaitingMutex` released, blocked until notified -/
  | blocked
  /-- notified; about to re-take `m_WaitingMutex` and return from `wait` -/
  | reacquire
  /-- end of the loop body, about to release `m_WaitingMutex` -/
  | unlockWaiting
  /-- after `Wait` has returned -/
  | returned
deriving DecidableEq

/-- Where a thread executing `TsQueue::PushBack` or `TsQueue::PushFront` stands. -/
inductive PushPc
  /-- about to take `m_QueueMutex` -/
  | lockQueue
  /-- holding `m_QueueMutex`, about to `emplace_back` / `emplace_front` -/
  | emplace
  /-- about to take `m_WaitingMutex` -/
  | lockWaiting
  /-- holding both mutexes, about to call `notify_one` -/
  | notify
  /-- about to release both mutexes -/
  | unlock
  /-- the push has returned -/
  | done
deriving DecidableEq

/-- A producer thread: a call of `PushFront(item)` (`front = true`) or
`PushBack(item)`. -/
structure Producer (α : Type) where
  pc : PushPc
  item : α
  front : Bool
deriving DecidableEq

/-- A `TsQueue` shared by one consumer in `Wait` (thread 0) and producer threads
(threads 1, 2, ...).  A mutex records the thread holding it. -/
structure TsQueue (α : Type) where
  m_Queue : List α
  m_QueueMutex : Option Nat
  m_WaitingMutex : Option Nat
  consumer : WaitPc
  producers : List (Producer α)
deriving DecidableEq

/-- The next atomic action of the consumer, `none` when it cannot move. -/
def waitStep {α : Type} (s : TsQueue α) : Option (TsQueue α) :=
  match s.consumer with
  | WaitPc.callEmpty =>
    if s.m_QueueMutex = none then
      some { s with m_QueueMutex := some 0, consumer := WaitPc.readEmpty }
    else none
  | WaitPc.readEmpty =>
    some { s with m_QueueMutex := none,
                  consumer := if s.m_Queue.isEmpty then WaitPc.lockWaiting
                              else WaitPc.returned }
  | WaitPc.lockWaiting =>
    if s.m_WaitingMutex = none then
      some { s with m_WaitingMutex := some 0, consumer := WaitPc.callWait }
    else none
  | WaitPc.callWait => some { s with m_WaitingMutex := none, consumer := WaitPc.blocked }
  | WaitPc.blocked => none
  | WaitPc.reacquire =>
    if s.m_WaitingMutex = none then
      some { s with m_WaitingMutex := some 0, consumer := WaitPc.unlockWaiting }
    else none
  | WaitPc.unlockWaiting =>
    some { s with m_WaitingMutex := none, consumer := WaitPc.callEmpty }
  | WaitPc.returned => none

/-- The next atomic action of producer `i` (thread `i + 1`), `none` when it cannot
move.  `notify_one` wakes the consumer only if it is blocked in `wait` at that moment. -/
def pushStep {α : Type} (s : TsQueue α) (i : Nat) : Option (TsQueue α) :=
  match s.producers.get? i with
  | none => none
  | some p =>
    match p.pc with
    | PushPc.lockQueue =>
      if s.m_QueueMutex = none then
        some { s with m_QueueMutex := some (i + 1),
                      producers := s.producers.set i { p with pc := PushPc.emplace } }
      else none
    | PushPc.emplace =>
      some { s with m_Queue := if p.front then p.item :: s.m_Queue else s.m_Queue ++ [p.item],
                    producers := s.producers.set i { p with pc := PushPc.lockWaiting } }
    | PushPc.lockWaiting =>
      if s.m_WaitingMutex = none then
        some { s with m_WaitingMutex := some (i + 1),
                      producers := s.producers.set i { p with pc := PushPc.notify } }
      else none
    | PushPc.notify =>
      some { s with consumer := if s.consumer = WaitPc.blocked then WaitPc.reacquire
                                else s.consumer,
                    producers := s.producers.set i { p with pc := PushPc.unlock } }
    | PushPc.unlock =>
      some { s with m_WaitingMutex := none, m_QueueMutex := none,
                    producers := s.producers.set i { p with pc := PushPc.done } }
    | PushPc.done => none

/-- One atomic action of thread `tid`. -/
def tsStep {α : Type} (s : TsQueue α) : Nat → Option (TsQueue α)
  | 0 => waitStep s
  | i + 1 => pushStep s i

/-- An interleaving: the threads act in the order of the schedule. -/
def tsRun {α : Type} (s : TsQueue α) : List Nat → Option (TsQueue α)
  | [] => some s
  | tid :: rest =>
    match tsStep s tid with
    | none => none
    | some s' => tsRun s' rest

/-- An empty queue, both mutexes free, the consumer entering `Wait`, and one producer
about to call `PushBack(item)`. -/
def waitVersusPush {α : Type} (item : α) : TsQueue α :=
  { m_Queue := [], m_QueueMutex := none, m_WaitingMutex := none,
    consumer := WaitPc.callEmpty,
    producers := [{ pc := PushPc.lockQueue, item := item, front := false }] }

/-! ## Connection.h: the handshake transform -/

/-- The mask whose selected bits `Scramble` shifts right by 4. -/
def scrambleMaskRight : Nat := 0x2FF3300AA0BCDE25

/-- The mask whose selected bits `Scramble` shifts left by 4. -/
def scrambleMaskLeft : Nat := 0x8AF842BCDEAF2F02

/-- The function `Connection::Scramble` on `uint64_t`. -/
def Scramble (input : Nat) : Nat :=
  let out := (input % U64) ^^^ 0xA87F20CD4A89BB2C
  let out := ((out &&& scrambleMaskRight) >>> 4) ||| (((out &&& scrambleMaskLeft) <<< 4) % U64)
  out ^^^ 0xFB282810FAC82093

/-! ## Connection.h: the connection state machine -/

/-- The `enum class Owner`. -/
inductive Owner
  | Server
  | Client
deriving DecidableEq

/-- The `struct OwnedMessage`: `remote` is the shared pointer to the sending connection,
identified by the connection's id; `none` is `nullptr`. -/
structure OwnedMessage (T : Type) where
  remote : Option Nat := none
  msg : Message T
deriving DecidableEq

/-- The asynchronous operations a connection starts on its socket. -/
inductive AsyncOp
  | Connect
  | WriteValidation
  | ReadValidation
  | WriteHeader
  | WriteBody
  | ReadHeader
  | ReadBody
deriving DecidableEq

/-- One buffer handed to `asio::async_write` and written in full: the handshake word,
a message header, or a message body. -/
inductive Chunk (T : Type)
  | handshake (value : Nat)
  | header (h : MessageHeader T)
  | body (bytes : List Byte)
deriving DecidableEq

/-- What a connection does that is visible outside of it, in the order it happens. -/
inductive Effect (T : Type)
  | started (op : AsyncOp)
  | OnClientValidated (client : Nat)
  | pushedIn (m : OwnedMessage T)
  | closed
deriving DecidableEq

/-- The members of `class Connection`, with the socket reduced to its open flag, the
list of outstanding asynchronous operations, and the chunks written to it so far. -/
structure Connection (T : Type) where
  socketOpen : Bool
  pending : List AsyncOp := []
  wire : List (Chunk T) := []
  trace : List (Effect T) := []
  m_QMessagesOut : List (Message T) := []
  m_QMessagesIn : List (OwnedMessage T) := []
  m_MsgTemporaryIn : Message T
  m_OwnerType : Owner
  m_ID : Nat := 0
  m_HandshakeOut : Nat := 0
  m_HandshakeIn : Nat := 0
  m_HandshakeCheck : Nat := 0
deriving DecidableEq

namespace Connection

variable {T : Type}

/-- The constructor; `now` is the clock reading, `socketOpen` the state of the socket
moved in. -/
def new [Inhabited T] (parent : Owner) (now : Nat) (socketOpen : Bool) : Connection T :=
  let c : Connection T :=
    { socketOpen := socketOpen
      m_MsgTemporaryIn := { header := { id := default, size := 0 }, body := [] }
      m_OwnerType := parent }
  if c.m_OwnerType = Owner.Server then
    let c := { c with m_HandshakeOut := now % U64 }
    { c with m_HandshakeCheck := Scramble c.m_HandshakeOut }
  else c

/-- Starting an asynchronous operation: it becomes outstanding. -/
def start (c : Connection T) (op : AsyncOp) : Connection T :=
  { c with pending := c.pending ++ [op], trace := c.trace ++ [Effect.started op] }

/-- The call `m_Socket.close()`. -/
def close (c : Connection T) : Connection T :=
  { c with socketOpen := false, trace := c.trace ++ [Effect.closed] }

def WriteValidation (c : Connection T) : Connection T := c.start AsyncOp.WriteValidation

def ReadValidation (c : Connection T) : Connection T := c.start AsyncOp.ReadValidation

def WriteHeader (c : Connection T) : Connection T := c.start AsyncOp.WriteHeader

def WriteBody (c : Connection T) : Connection T := c.start AsyncOp.WriteBody

def ReadHeader (c : Connection T) : Connection T := c.start AsyncOp.ReadHeader

def ReadBody (c : Connection T) : Connection T := c.start AsyncOp.ReadBody

def ConnectToClient (c : Connection T) (id : Nat) : Connection T :=
  if c.m_OwnerType = Owner.Server then
    if c.socketOpen then
      let c := { c with m_ID := id }
      let c := c.WriteValidation
      c.ReadValidation
    else c
  else c

def ConnectToServer (c : Connection T) : Connection T :=
  if c.m_OwnerType = Owner.Client then c.start AsyncOp.Connect else c

/-- Completion handler of `async_connect`; a successful connect leaves the socket open. -/
def ConnectDone (c : Connection T) (ec : Bool) : Connection T :=
  if !ec then
    let c := { c with socketOpen := true }
    c.ReadValidation
  else c

/-- The lambda that `Send` posts to the reactor. -/
def Send (c : Connection T) (msg : Message T) : Connection T :=
  let writingMessages := !c.m_QMessagesOut.isEmpty
  let c := { c with m_QMessagesOut := c.m_QMessagesOut ++ [msg] }
  if !writingMessages then c.WriteHeader else c

/-- Completion handler of `WriteHeader`.  On success the header of the front message
has been written.  `Front()` of an empty queue is undefined in C++; the state is then
left as it is. -/
def WriteHeaderDone (c : Connection T) (ec : Bool) : Connection T :=
  if !ec then
    match c.m_QMessagesOut with
    | [] => c
    | front :: rest =>
      let c := { c with wire := c.wire ++ [Chunk.header front.header] }
      if front.body.length > 0 then c.WriteBody
      else
        let c := { c with m_QMessagesOut := rest }
        if !c.m_QMessagesOut.isEmpty then c.WriteHeader else c
  else c.close

/-- Completion handler of `WriteBody`.  On success the body of the front message has
been written. -/
def WriteBodyDone (c : Connection T) (ec : Bool) : Connection T :=
  if !ec then
    match c.m_QMessagesOut with
    | [] => c
    | front :: rest =>
      let c := { c with wire := c.wire ++ [Chunk.body front.body] }
      let c := { c with m_QMessagesOut := rest }
      if !c.m_QMessagesOut.isEmpty then c.WriteHeader else c
  else c.close

def AddToIncomingMessageQueue (c : Connection T) : Connection T :=
  let msg : OwnedMessage T :=
    if c.m_OwnerType = Owner.Server then
      { remote := some c.m_ID, msg := c.m_MsgTemporaryIn }
    else
      { remote := none, msg := c.m_MsgTemporaryIn }
  let c := { c with m_QMessagesIn := c.m_QMessagesIn ++ [msg],
                    trace := c.trace ++ [Effect.pushedIn msg] }
  c.ReadHeader

/-- Completion handler of `ReadHeader`; on success `hdr` has been read into
`m_MsgTemporaryIn.header` (its `size` field is a `uint32_t`). -/
def ReadHeaderDone (c : Connection T) (ec : Bool) (hdr : MessageHeader T) : Connection T :=
  if !ec then
    let c := { c with m_MsgTemporaryIn :=
      { c.m_MsgTemporaryIn with header := { id := hdr.id, size := hdr.size % U32 } } }
    if c.m_MsgTemporaryIn.header.size > 0 then
      let c := { c with m_MsgTemporaryIn :=
        { c.m_MsgTemporaryIn with
          body := resize c.m_MsgTemporaryIn.body c.m_MsgTemporaryIn.header.size } }
      c.ReadBody
    else c.AddToIncomingMessageQueue
  else c.close

/-- A successful `async_read` into a buffer: the received bytes overwrite the buffer,
whose length does not change. -/
def readInto (buffer data : List Byte) : List Byte :=
  data.take buffer.length ++ buffer.drop data.length

/-- Completion handler of `ReadBody`; on success `data` has been read into
`m_MsgTemporaryIn.body`. -/
def ReadBodyDone (c : Connection T) (ec : Bool) (data : List Byte) : Connection T :=
  if !ec then
    let c := { c with m_MsgTemporaryIn :=
      { c.m_MsgTemporaryIn with body := readInto c.m_MsgTemporaryIn.body data } }
    c.AddToIncomingMessageQueue
  else c.close

/-- Completion handler of `WriteValidation`; on success the handshake word has been
written. -/
def WriteValidationDone (c : Connection T) (ec : Bool) : Connection T :=
  if !ec then
    let c := { c with wire := c.wire ++ [Chunk.handshake c.m_HandshakeOut] }
    if c.m_OwnerType = Owner.Client then c.ReadHeader else c
  else c.close

/-- Completion handler of `ReadValidation`; on success the 64-bit word `value` has been
read into `m_HandshakeIn`.  `server->OnClientValidated(this)` is recorded in the trace. -/
def ReadValidationDone (c : Connection T) (ec : Bool) (value : Nat) : Connection T :=
  if !ec then
    let c := { c with m_HandshakeIn := value % U64 }
    if c.m_OwnerType = Owner.Server then
      if c.m_HandshakeIn = c.m_HandshakeCheck then
        let c := { c with trace := c.trace ++ [Effect.OnClientValidated c.m_ID] }
        c.ReadHeader
      else c.close
    else
      let c := { c with m_HandshakeOut := Scramble c.m_HandshakeIn }
      c.WriteValidation
  else c.close

end Connection

/-- What the reactor runs on a connection: the posted `Send` lambda, or the completion
handler of an outstanding operation with its error code (`ec = true` is a failure) and,
for a read, the data received. -/
inductive Event (T : Type)
  | send (msg : Message T)
  | connectDone (ec : Bool)
  | writeValidationDone (ec : Bool)
  | readValidationDone (ec : Bool) (value : Nat)
  | writeHeaderDone (ec : Bool)
  | writeBodyDone (ec : Bool)
  | readHeaderDone (ec : Bool) (hdr : MessageHeader T)
  | readBodyDone (ec : Bool) (data : List Byte)
deriving DecidableEq

/-- Deliver the completion of `op`: only an outstanding operation completes, and it is
then no longer outstanding. -/
def complete {T : Type} (c : Connection T) (op : AsyncOp)
    (handler : Connection T → Connection T) : Connection T :=
  if op ∈ c.pending then handler { c with pending := c.pending.erase op } else c

/-- One step of the reactor on a connection. -/
def step {T : Type} (c : Connection T) : Event T → Connection T
  | Event.send msg => c.Send msg
  | Event.connectDone ec => complete c AsyncOp.Connect (fun c => c.ConnectDone ec)
  | Event.writeValidationDone ec =>
    complete c AsyncOp.WriteValidation (fun c => c.WriteValidationDone ec)
  | Event.readValidationDone ec value =>
    complete c AsyncOp.ReadValidation (fun c => c.ReadValidationDone ec value)
  | Event.writeHeaderDone ec => complete c AsyncOp.WriteHeader (fun c => c.WriteHeaderDone ec)
  | Event.writeBodyDone ec => complete c AsyncOp.WriteBody (fun c => c.WriteBodyDone ec)
  | Event.readHeaderDone ec hdr =>
    complete c AsyncOp.ReadHeader (fun c => c.ReadHeaderDone ec hdr)
  | Event.readBodyDone ec data => complete c AsyncOp.ReadBody (fun c => c.ReadBodyDone ec data)

/-- A run of the reactor: the events are handled one after the other. -/
def run {T : Type} (c : Connection T) : List (Event T) → Connection T
  | [] => c
  | e :: es => run (step c e) es

/-- A server-role connection right after the accept loop has called `ConnectToClient`
on it: constructed with clock reading `now` on an open socket, given identity `id`. -/
def acceptedConnection (T : Type) [Inhabited T] (now id : Nat) : Connection T :=
  (Connection.new Owner.Server now true).ConnectToClient id

/-- A client-role connection whose `ConnectToServer` has succeeded: constructed on a
socket that is not yet open, connected, now waiting for the server's nonce. -/
def connectedClient (T : Type) [Inhabited T] : Connection T :=
  step (Connection.new Owner.Client 0 false).ConnectToServer (Event.connectDone false)

/-- What a client-role connection writes to its socket after it has received the
nonce `n` and its write has completed. -/
def clientReply (T : Type) [Inhabited T] (n : Nat) : List (Chunk T) :=
  (run (connectedClient T)
    [Event.readValidationDone false n, Event.writeValidationDone false]).wire

/-- The server has validated the connection: the `OnClientValidated` hook has run for
it, its socket is open and its first header read is outstanding. -/
def Validated {T : Type} (c : Connection T) : Prop :=
  Effect.OnClientValidated c.m_ID ∈ c.trace ∧ c.socketOpen = true ∧
    AsyncOp.ReadHeader ∈ c.pending

/-- The first handshake response delivered to a connection in a run: its error code
and the word read, if any response is delivered at all. -/
def firstResponse {T : Type} : List (Event T) → Option (Bool × Nat)
  | [] => none
  | Event.readValidationDone ec value :: _ => some (ec, value)
  | _ :: es => firstResponse es

/-- The handshake response of the run was read without error and equals `Scramble n`. -/
def ResponseMatched {T : Type} (n : Nat) (evs : List (Event T)) : Prop :=
  ∃ r, firstResponse evs = some (false, r) ∧ r % U64 = Scramble n

def Effect.isHook {T : Type} : Effect T → Bool
  | Effect.OnClientValidated _ => true
  | _ => false

def Effect.isPush {T : Type} : Effect T → Bool
  | Effect.pushedIn _ => true
  | _ => false

/-- The calls of the `OnClientValidated` hook recorded in a trace, in order. -/
def hookCalls {T : Type} (tr : List (Effect T)) : List (Effect T) :=
  tr.filter Effect.isHook

/-- The messages pushed to the inbound queue recorded in a trace, in order. -/
def pushes {T : Type} (tr : List (Effect T)) : List (Effect T) :=
  tr.filter Effect.isPush

/-- No header read is started in the trace before the first hook call. -/
def hookFirst {T : Type} : List (Effect T) → Bool
  | [] => true
  | Effect.started AsyncOp.ReadHeader :: _ => false
  | Effect.OnClientValidated _ :: _ => true
  | _ :: tr => hookFirst tr

/-- State of a server-role connection on which no validation has happened: `rv`
handshake reads are outstanding, no header or body read is, the hook has not run, no
header read was ever started and nothing has been pushed. -/
def Quiet {T : Type} (n id rv : Nat) (c : Connection T) : Prop :=
  c.m_OwnerType = Owner.Server ∧ c.m_ID = id ∧ c.m_HandshakeCheck = Scramble n ∧
    AsyncOp.Connect ∉ c.pending ∧ AsyncOp.ReadHeader ∉ c.pending ∧
    AsyncOp.ReadBody ∉ c.pending ∧ c.pending.count AsyncOp.ReadValidation = rv ∧
    hookCalls c.trace = [] ∧ Effect.started AsyncOp.ReadHeader ∉ c.trace ∧
    pushes c.trace = [] ∧ c.m_QMessagesIn = []

/-- State of a server-role connection that has been validated: the hook has run exactly
once, before any header read was started, and no handshake read is outstanding. -/
def Streaming {T : Type} (n id : Nat) (c : Connection T) : Prop :=
  c.m_OwnerType = Owner.Server ∧ c.m_ID = id ∧ c.m_HandshakeCheck = Scramble n ∧
    AsyncOp.Connect ∉ c.pending ∧ AsyncOp.ReadValidation ∉ c.pending ∧
    hookCalls c.trace = [Effect.OnClientValidated id] ∧ hookFirst c.trace = true

/-! ### The write chain -/

/-- Object representations: the raw bytes of a `MessageHeader<T>` and of a `uint64_t`
in memory, which is what `asio::buffer` puts on the wire. -/
structure Layout (T : Type) where
  header : MessageHeader T → List Byte
  word : Nat → List Byte

/-- The bytes of one chunk. -/
def Chunk.bytes {T : Type} (L : Layout T) : Chunk T → List Byte
  | Chunk.handshake value => L.word value
  | Chunk.header h => L.header h
  | Chunk.body bytes => bytes

/-- What `Server::Update` does that is visible outside of the server: the calls of the
overridable hook `OnMessage(client, msg)`.  The `std::shared_ptr<Connection<T>>` passed
as `client` is the handle of the connection object it points to; `none` is `nullptr`. -/
inductive ServerEffect (T : Type)
  | OnMessage (client : Option Nat) (msg : Message T)
deriving DecidableEq

/-- The `while` loop of `Server::Update` with `messageCount` as given: the inbound queue
afterwards and the `OnMessage` calls in order.  `messageCount` is a `uint32_t`. -/
def UpdateLoop {T : Type} (maxMessages : Nat) :
    List (OwnedMessage T) → Nat → List (OwnedMessage T) × List (ServerEffect T)
  | [], _ => ([], [])
  | front :: rest, messageCount =>
    if messageCount < maxMessages then
      let r := UpdateLoop maxMessages rest ((messageCount + 1) % U32)
      (r.1, ServerEffect.OnMessage front.remote front.msg :: r.2)
    else (front :: rest, [])

/-- The call `Server::Update(maxMessages, waitForMessage)` with no concurrent pushes: the inbound
queue afterwards and the `OnMessage` calls in order; `none` when the call does not
return because `Wait()` blocks on a queue that stays empty. -/
def Update {T : Type} (maxMessages : Nat) (waitForMessage : Bool)
    (m_QMessagesIn : List (OwnedMessage T)) :
    Option (List (OwnedMessage T) × List (ServerEffect T)) :=
  if waitForMessage && m_QMessagesIn.isEmpty then none
  else some (UpdateLoop maxMessages m_QMessagesIn 0)

/-- The empty message a caller starts from: empty body, `header.size == 0`. -/
def emptyMessage {T : Type} (id : T) : Message T :=
  { header := { id := id, size := 0 }, body := [] }

/-- The round-trip law for the values `vs`: appended in order and extracted in reverse
order they come back unchanged, leaving the empty message. -/
def RoundTrip {T : Type} (id : T) (vs : List (List Byte)) : Prop :=
  extractAll (appendAll (emptyMessage id) vs) (vs.reverse.map List.length)
    = Outcome.returned (emptyMessage id, vs.reverse)

/-- Disjointness of the two masks of `Scramble`: no bit position is set in both. -/
def MasksDisjoint : Prop :=
  ∀ i : Nat, ¬ (scrambleMaskRight.testBit i = true ∧ scrambleMaskLeft.testBit i = true)

/-! ## Theorems: message codec -/

theorem resize_length (v : List Byte) (n : Nat) : (resize v n).length = n := by
  simp only [resize, List.length_append, List.length_take, List.length_replicate]
  omega

theorem resize_append_left (v w : List Byte) : resize (v ++ w) v.length = v := by
  simp [resize]

theorem resize_grow (v : List Byte) (k : Nat) :
    resize v (v.length + k) = v ++ List.replicate k 0 := by
  simp [resize]

theorem memcpyInto_tail (v pad data : List Byte) (h : pad.length = data.length) :
    memcpyInto (v ++ pad) v.length data = v ++ data := by
  simp [memcpyInto, h]

theorem memcpyFrom_tail (v data : List Byte) :
    memcpyFrom (v ++ data) v.length data.length = some data := by
  simp [memcpyFrom]

theorem append_body {T : Type} (msg : Message T) (data : List Byte)
    (h : msg.header.size = msg.body.length) :
    (msg.append data).body = msg.body ++ data := by
  simp only [Message.append, h, resize_grow]
  exact memcpyInto_tail _ _ _ (by simp)

theorem append_size {T : Type} (msg : Message T) (data : List Byte) :
    (msg.append data).header.size = (msg.append data).body.length % U32 := rfl

theorem append_id {T : Type} (msg : Message T) (data : List Byte) :
    (msg.append data).header.id = msg.header.id := rfl

theorem extract_append {T : Type} (msg : Message T) (data : List Byte)
    (h : msg.header.size = msg.body.length) (hlt : msg.body.length + data.length < U32) :
    (msg.append data).extract data.length = Outcome.returned (msg, data) := by
  have hb := append_body msg data h
  have hs : (msg.append data).header.size = msg.body.length + data.length := by
    rw [append_size, hb, List.length_append, Nat.mod_eq_of_lt hlt]
  have hi : ((msg.append data).header.size + U32 - data.length % U32) % U32
      = msg.body.length := by
    rw [hs, Nat.mod_eq_of_lt (by omega : data.length < U32)]
    have : msg.body.length + data.length + U32 - data.length = msg.body.length + U32 := by
      omega
    rw [this, Nat.add_mod_right, Nat.mod_eq_of_lt (by omega)]
  obtain ⟨⟨mid, msz⟩, mbody⟩ := msg
  simp only at h hb hi hlt
  subst h
  simp only [Message.extract, hi, hb, memcpyFrom_tail, resize_append_left,
    Nat.mod_eq_of_lt (by omega : mbody.length < U32), append_id]

theorem bind_returned {α β : Type} (a : α) (f : α → Outcome β) :
    (Outcome.returned a).bind f = f a := rfl

theorem bind_thrown {α β : Type} (f : α → Outcome β) :
    (Outcome.thrown : Outcome α).bind f = Outcome.thrown := rfl

theorem bind_undefined {α β : Type} (f : α → Outcome β) :
    (Outcome.undefined : Outcome α).bind f = Outcome.undefined := rfl

theorem extractAll_append {T : Type} (msg : Message T) (ns ms : List Nat) :
    extractAll msg (ns ++ ms)
      = (extractAll msg ns).bind fun r =>
          (extractAll r.1 ms).bind fun rs => Outcome.returned (rs.1, r.2 ++ rs.2) := by
  induction ns generalizing msg with
  | nil =>
    rw [List.nil_append, extractAll, bind_returned]
    cases extractAll msg ms <;> rfl
  | cons n ns ih =>
    rw [List.cons_append, extractAll, extractAll]
    cases msg.extract n with
    | returned r =>
      rw [bind_returned, bind_returned, ih]
      cases extractAll r.1 ns with
      | returned rs =>
        rw [bind_returned, bind_returned, bind_returned]
        cases extractAll rs.1 ms <;> rfl
      | thrown => rfl
      | undefined => rfl
    | thrown => rfl
    | undefined => rfl

theorem round_trip_from {T : Type} (vs : List (List Byte)) (msg : Message T)
    (h : msg.header.size = msg.body.length)
    (hlt : msg.body.length + (vs.map List.length).sum < U32) :
    extractAll (appendAll msg vs) (vs.reverse.map List.length)
      = Outcome.returned (msg, vs.reverse) := by
  induction vs generalizing msg with
  | nil => simp [appendAll, extractAll]
  | cons v vs ih =>
    simp only [List.map_cons, List.sum_cons] at hlt
    have hb := append_body msg v h
    have h1 : (msg.append v).header.size = (msg.append v).body.length := by
      rw [append_size, Nat.mod_eq_of_lt]
      rw [hb, List.length_append]; omega
    have h2 : (msg.append v).body.length + (vs.map List.length).sum < U32 := by
      rw [hb, List.length_append]; omega
    have := ih (msg.append v) h1 h2
    rw [appendAll, List.reverse_cons, List.map_append, extractAll_append, this,
      bind_returned]
    simp only [List.map_cons, List.map_nil, extractAll, extract_append msg v h (by omega),
      bind_returned]

/-- C1 (amended): starting from the empty message, values `v1 .. vn` whose sizes add up
to less than `2^32` bytes, appended in order and extracted in reverse order, come back
as `vn .. v1`, and the message is again empty with `header.size == 0`. -/
theorem codec_round_trip {T : Type} (id : T) (vs : List (List Byte))
    (h : (vs.map List.length).sum < U32) : RoundTrip id vs := by
  unfold RoundTrip
  exact round_trip_from vs (emptyMessage id) rfl (by simpa [emptyMessage] using h)

/-- The round trip of a 2-byte, a 1-byte and a 4-byte value. -/
theorem codec_round_trip_witness :
    ([[1, 2], [3], [4, 5, 6, 7]].map List.length).sum < U32 ∧
      RoundTrip (0 : Nat) [[1, 2], [3], [4, 5, 6, 7]] :=
  ⟨by decide, codec_round_trip 0 _ (by decide)⟩

theorem U32_pos : 0 < U32 := by decide

theorem append_wrapped {T : Type} (id : T) :
    appendAll (emptyMessage id) [List.replicate U32 1, [2]]
      = { header := { id := id, size := 1 }, body := [2] } := by
  have hpos := U32_pos
  have h1 : ((emptyMessage id).append (List.replicate U32 1)).body = List.replicate U32 1 := by
    rw [append_body _ _ rfl]; rfl
  have h2 : ((emptyMessage id).append (List.replicate U32 1)).header.size = 0 := by
    rw [append_size, h1, List.length_replicate, Nat.mod_self]
  have h3 : resize (List.replicate U32 (1 : Byte)) 1 = [1] := by
    obtain ⟨k, hk⟩ : ∃ k, U32 = k + 1 := ⟨U32 - 1, by omega⟩
    rw [hk]
    simp [resize, List.replicate_succ]
  simp only [appendAll]
  generalize hm : (emptyMessage id).append (List.replicate U32 1) = m at h1 h2
  have hid : m.header.id = id := by rw [← hm]; rfl
  obtain ⟨⟨mid, msz⟩, mbody⟩ := m
  simp only at h1 h2 hid
  subst h1 h2 hid
  simp only [Message.append, Nat.zero_add, List.length_singleton, h3]
  rfl

theorem extract_underflow {T : Type} (msg : Message T) (n : Nat)
    (h : msg.body.length < n) : msg.extract n = Outcome.undefined := by
  have hnone : memcpyFrom msg.body ((msg.header.size + U32 - n % U32) % U32) n = none := by
    unfold memcpyFrom
    rw [if_neg (by omega)]
  simp only [Message.extract, hnone]

theorem extract_after_wrap (n : Nat) (h : 0 < n) :
    extractAll ({ header := { id := 0, size := 1 }, body := [2] } : Message Nat) [1, n]
      = Outcome.undefined := by
  have h1 : ({ header := { id := 0, size := 1 }, body := [2] } : Message Nat).extract 1
      = Outcome.returned ({ header := { id := 0, size := 0 }, body := [] }, [2]) := by decide
  have h2 : ({ header := { id := 0, size := 0 }, body := [] } : Message Nat).extract n
      = Outcome.undefined := extract_underflow _ n h
  rw [extractAll, h1, bind_returned, extractAll, h2]
  rfl

/-- C1 (as stated, refuted): a value of `2^32` bytes followed by a one-byte value does
not round-trip: `header.size` wraps to 0 after the first append, so the second append
resizes the body down to one byte; the first value is no longer in the body and its
extraction reads past the end. -/
theorem codec_round_trip_wraps :
    ¬ RoundTrip (0 : Nat) [List.replicate U32 1, [2]] := by
  intro h
  have hlen : ([List.replicate U32 (1 : Byte), [2]].reverse.map List.length) = [1, U32] := by
    rw [List.reverse_cons, List.reverse_cons, List.reverse_nil, List.nil_append,
      List.singleton_append, List.map_cons, List.map_cons, List.map_nil,
      List.length_replicate, List.length_singleton]
  unfold RoundTrip at h
  rw [append_wrapped, hlen, extract_after_wrap U32 U32_pos] at h
  exact Outcome.noConfusion h

/-- C3 (as stated, refuted): extracting a 4-byte value from a message that holds one
byte does not end in an error reported to the caller: `operator>>` copies from outside
the body, which is undefined behaviour. -/
theorem extract_underflow_unreported :
    (({ header := { id := 0, size := 1 }, body := [5] } : Message Nat).body.length < 4) ∧
      ({ header := { id := 0, size := 1 }, body := [5] } : Message Nat).extract 4
        = Outcome.undefined ∧
      ({ header := { id := 0, size := 1 }, body := [5] } : Message Nat).extract 4
        ≠ Outcome.thrown := by
  have h : ({ header := { id := 0, size := 1 }, body := [5] } : Message Nat).extract 4
      = Outcome.undefined := extract_underflow _ 4 (by decide)
  refine ⟨by decide, h, ?_⟩
  rw [h]
  exact fun h' => Outcome.noConfusion h'

/-- C3 (amended): `operator>>` has no underflow check and no error path.  For every
message whose body holds fewer bytes than `sizeof(DataType)` it copies from outside the
body, which is undefined behaviour, and no error is reported to the caller. -/
theorem extract_underflow_undefined {T : Type} (msg : Message T) (n : Nat)
    (h : msg.body.length < n) :
    msg.extract n = Outcome.undefined ∧ msg.extract n ≠ Outcome.thrown := by
  have hu := extract_underflow msg n h
  refine ⟨hu, ?_⟩
  rw [hu]
  exact fun h' => Outcome.noConfusion h'

/-- Extraction of 4 bytes from a message that holds one byte. -/
theorem extract_underflow_undefined_witness :
    (({ header := { id := 0, size := 1 }, body := [5] } : Message Nat).body.length < 4) ∧
      ({ header := { id := 0, size := 1 }, body := [5] } : Message Nat).extract 4
        = Outcome.undefined :=
  ⟨by decide, (extract_underflow_undefined _ 4 (by decide)).1⟩

/-! ## Theorems: the handshake transform -/

theorem masks_common : scrambleMaskRight &&& scrambleMaskLeft = 0x0AF0000880AC0E00 := by
  decide

/-- C10 (as stated, refuted): bit 9 is set in both masks of `Scramble`, so the masks
are not disjoint. -/
theorem scramble_masks_overlap : ¬ MasksDisjoint := by
  intro h
  exact h 9 ⟨by decide, by decide⟩

/-- C10 (amended): the two masks of `Scramble` overlap; the bit positions set in both
are exactly 9, 10, 11, 18, 19, 21, 23, 31, 35, 52, 53, 54, 55, 57 and 59. -/
theorem scramble_masks_common_bits (i : Nat) :
    (scrambleMaskRight.testBit i = true ∧ scrambleMaskLeft.testBit i = true) ↔
      i ∈ [9, 10, 11, 18, 19, 21, 23, 31, 35, 52, 53, 54, 55, 57, 59] := by
  rw [← Bool.and_eq_true, ← Nat.testBit_land, masks_common]
  rcases Nat.lt_or_ge i 64 with h | h
  · revert i
    decide
  · have h1 : Nat.testBit 0x0AF0000880AC0E00 i = false := by
      apply Nat.testBit_eq_false_of_lt
      calc 0x0AF0000880AC0E00 < 2 ^ 64 := by decide
        _ ≤ 2 ^ i := Nat.pow_le_pow_right (by decide) h
    rw [h1]
    simp only [Bool.false_eq_true, false_iff, List.mem_cons, List.mem_singleton, not_or,
      List.not_mem_nil, not_false_eq_true, and_true]
    omega


theorem Scramble_lt (x : Nat) : Scramble x < U64 := by
  have h64 : U64 = 2 ^ 64 := rfl
  unfold Scramble
  simp only [h64]
  apply Nat.xor_lt_two_pow _ (by decide)
  apply Nat.or_lt_two_pow
  · rw [Nat.shiftRight_eq_div_pow]
    exact Nat.lt_of_le_of_lt (Nat.div_le_self _ _) (Nat.and_lt_two_pow _ (by decide))
  · exact Nat.mod_lt _ (by decide)

theorem Scramble_mod (x : Nat) : Scramble (x % U64) = Scramble x := by
  simp only [Scramble, Nat.mod_mod]

/-! ## Theorems: the connection state machine -/

/-- C2 (evidence): on a validated server connection a frame with a 3-byte body followed
by a frame with `header.size == 0` pushes a second message whose header says 0 bytes
while its body still holds the 3 bytes of the first. -/
theorem read_chain_keeps_stale_body :
    (run (acceptedConnection Nat 5 1)
      [Event.readValidationDone false (Scramble 5),
       Event.readHeaderDone false { id := 7, size := 3 },
       Event.readBodyDone false [1, 2, 3],
       Event.readHeaderDone false { id := 8, size := 0 }]).m_QMessagesIn
      = [{ remote := some 1, msg := { header := { id := 7, size := 3 }, body := [1, 2, 3] } },
         { remote := some 1, msg := { header := { id := 8, size := 0 }, body := [1, 2, 3] } }] := by
  decide

theorem accepted_pending (T : Type) [Inhabited T] (n id : Nat) :
    (acceptedConnection T n id).pending = [AsyncOp.WriteValidation, AsyncOp.ReadValidation] :=
  rfl

theorem server_reads_response {T : Type} [Inhabited T] (n id r : Nat) (hr : r < U64) :
    step (acceptedConnection T n id) (Event.readValidationDone false r)
      = if r = Scramble n then
          Connection.ReadHeader
            { (acceptedConnection T n id) with
                pending := [AsyncOp.WriteValidation]
                m_HandshakeIn := r
                trace := (acceptedConnection T n id).trace ++ [Effect.OnClientValidated id] }
        else
          Connection.close
            { (acceptedConnection T n id) with
                pending := [AsyncOp.WriteValidation]
                m_HandshakeIn := r } := by
  simp only [step, complete, accepted_pending]
  simp [Connection.ReadValidationDone, acceptedConnection, Connection.new,
    Connection.ConnectToClient, Connection.WriteValidation, Connection.ReadValidation,
    Connection.start, Nat.mod_eq_of_lt hr, Scramble_mod]

theorem accepted_fields (T : Type) [Inhabited T] (n id : Nat) :
    (acceptedConnection T n id).m_ID = id ∧
      (acceptedConnection T n id).socketOpen = true ∧
      (acceptedConnection T n id).m_HandshakeOut = n % U64 ∧
      (acceptedConnection T n id).m_HandshakeCheck = Scramble n ∧
      (acceptedConnection T n id).trace
        = [Effect.started AsyncOp.WriteValidation, Effect.started AsyncOp.ReadValidation] := by
  simp [acceptedConnection, Connection.new, Connection.ConnectToClient,
    Connection.WriteValidation, Connection.ReadValidation, Connection.start, Scramble_mod]

theorem client_reply (T : Type) [Inhabited T] (n : Nat) :
    clientReply T n = [Chunk.handshake (Scramble n)] := by
  simp [clientReply, connectedClient, run, step, complete, Connection.new,
    Connection.ConnectToServer, Connection.ConnectDone, Connection.ReadValidationDone,
    Connection.WriteValidationDone, Connection.WriteValidation, Connection.ReadValidation,
    Connection.ReadHeader, Connection.start, Scramble_mod]

theorem validated_iff {T : Type} [Inhabited T] (n id r : Nat) (hr : r < U64) :
    Validated (step (acceptedConnection T n id) (Event.readValidationDone false r))
      ↔ r = Scramble n := by
  obtain ⟨hid, hopen, -, -, htr⟩ := accepted_fields T n id
  rw [server_reads_response n id r hr]
  by_cases h : r = Scramble n
  · simp [h, Validated, Connection.ReadHeader, Connection.start, hid, hopen]
  · simp [h, Validated, Connection.close]

/-- C4: a server-role connection constructed with the 64-bit nonce `n` sends `n` and
keeps `check = Scramble(n)`; on a 64-bit response `r` it validates the connection if and
only if `r == Scramble(n)` and has closed its socket otherwise; and a client-role
connection that receives `n` writes the reply `Scramble(n)` to its socket, and that
server validates the connection on this reply. -/
theorem handshake_acceptance {T : Type} [Inhabited T] (n id r : Nat)
    (hn : n < U64) (hr : r < U64) :
    (acceptedConnection T n id).m_HandshakeOut = n ∧
      (acceptedConnection T n id).m_HandshakeCheck = Scramble n ∧
      (Validated (step (acceptedConnection T n id) (Event.readValidationDone false r))
        ↔ r = Scramble n) ∧
      (r ≠ Scramble n →
        (step (acceptedConnection T n id) (Event.readValidationDone false r)).socketOpen
          = false) ∧
      clientReply T n = [Chunk.handshake (Scramble n)] ∧
      (∃ reply, clientReply T n = [Chunk.handshake reply] ∧
        Validated (step (acceptedConnection T n id) (Event.readValidationDone false reply))) := by
  obtain ⟨-, -, hout, hcheck, -⟩ := accepted_fields T n id
  refine ⟨by rw [hout, Nat.mod_eq_of_lt hn], hcheck, validated_iff n id r hr, ?_,
    client_reply T n, Scramble n, client_reply T n,
    (validated_iff n id _ (Scramble_lt n)).2 rfl⟩
  intro hne
  rw [server_reads_response n id r hr]
  simp [hne, Connection.close]

/-- The server with nonce 5: a client that received 5 writes `Scramble 5`, this reply
is accepted, and the response 77 is not. -/
theorem handshake_acceptance_witness :
    5 < U64 ∧ 77 < U64 ∧
      (Validated (step (acceptedConnection Nat 5 1) (Event.readValidationDone false 77))
        ↔ 77 = Scramble 5) ∧
      clientReply Nat 5 = [Chunk.handshake (Scramble 5)] ∧
      (∃ reply, clientReply Nat 5 = [Chunk.handshake reply] ∧
        Validated (step (acceptedConnection Nat 5 1)
          (Event.readValidationDone false reply))) :=
  ⟨by decide, by decide, (handshake_acceptance 5 1 77 (by decide) (by decide)).2.2.1,
   (handshake_acceptance 5 1 77 (by decide) (by decide)).2.2.2.2.1,
   (handshake_acceptance 5 1 77 (by decide) (by decide)).2.2.2.2.2⟩

theorem hookCalls_append {T : Type} (a b : List (Effect T)) :
    hookCalls (a ++ b) = hookCalls a ++ hookCalls b := by
  simp [hookCalls]

theorem pushes_append {T : Type} (a b : List (Effect T)) :
    pushes (a ++ b) = pushes a ++ pushes b := by
  simp [pushes]

theorem hookFirst_append_clean {T : Type} (a b : List (Effect T))
    (h1 : hookCalls a = []) (h2 : Effect.started AsyncOp.ReadHeader ∉ a) :
    hookFirst (a ++ b) = hookFirst b := by
  induction a with
  | nil => rfl
  | cons e a ih =>
    have h2a : Effect.started AsyncOp.ReadHeader ∉ a := fun h => h2 (List.mem_cons_of_mem _ h)
    have h2e : e ≠ Effect.started AsyncOp.ReadHeader := fun h => h2 (h ▸ List.mem_cons_self _ _)
    cases e with
    | started op =>
      have h1a : hookCalls a = [] := by simpa [hookCalls, Effect.isHook] using h1
      cases op <;> simp_all [hookFirst]
    | OnClientValidated k => simp [hookCalls, Effect.isHook] at h1
    | pushedIn m =>
      have h1a : hookCalls a = [] := by simpa [hookCalls, Effect.isHook] using h1
      simp_all [hookFirst]
    | closed =>
      have h1a : hookCalls a = [] := by simpa [hookCalls, Effect.isHook] using h1
      simp_all [hookFirst]

theorem hookFirst_append_hook {T : Type} (a b : List (Effect T))
    (h1 : hookCalls a ≠ []) : hookFirst (a ++ b) = hookFirst a := by
  induction a with
  | nil => simp [hookCalls] at h1
  | cons e a ih =>
    cases e with
    | started op =>
      have h1a : hookCalls a ≠ [] := by simpa [hookCalls, Effect.isHook] using h1
      cases op <;> simp_all [hookFirst]
    | OnClientValidated k => simp [hookFirst]
    | pushedIn m =>
      have h1a : hookCalls a ≠ [] := by simpa [hookCalls, Effect.isHook] using h1
      simp_all [hookFirst]
    | closed =>
      have h1a : hookCalls a ≠ [] := by simpa [hookCalls, Effect.isHook] using h1
      simp_all [hookFirst]

theorem hookFirst_split {T : Type} (tr pre post : List (Effect T))
    (h : hookFirst tr = true) (hs : tr = pre ++ Effect.started AsyncOp.ReadHeader :: post) :
    ∃ k, Effect.OnClientValidated k ∈ pre := by
  subst hs
  induction pre with
  | nil => simp [hookFirst] at h
  | cons e pre ih =>
    cases e with
    | started op =>
      cases op <;> simp_all [hookFirst]
    | OnClientValidated k => exact ⟨k, List.mem_cons_self _ _⟩
    | pushedIn m => simp_all [hookFirst]
    | closed => simp_all [hookFirst]


theorem quiet_step {T : Type} (n id rv : Nat) (c : Connection T) (e : Event T)
    (h : Quiet n id rv c) (he : ∀ ec v, e ≠ Event.readValidationDone ec v) :
    Quiet n id rv (step c e) := by
  obtain ⟨hown, hid, hchk, hconn, hrh, hrb, hrv, hhook, hstart, hpush, hq⟩ := h
  cases e with
  | readValidationDone ec v => exact absurd rfl (he ec v)
  | send msg =>
    simp only [step, Connection.Send, Connection.WriteHeader, Connection.start]
    split_ifs <;>
      simp_all [Quiet, hookCalls, pushes, Effect.isHook, Effect.isPush, List.count_append]
  | connectDone ec => simp_all [step, complete, Quiet]
  | writeValidationDone ec =>
    simp only [step, complete, Connection.WriteValidationDone, Connection.ReadHeader,
      Connection.close, Connection.start]
    split_ifs <;>
      simp_all [Quiet, hookCalls, pushes, Effect.isHook, Effect.isPush, List.count_append,
        List.count_erase_of_ne]
  | writeHeaderDone ec =>
    cases hout : c.m_QMessagesOut <;>
    simp only [step, complete, Connection.WriteHeaderDone, Connection.WriteHeader,
      Connection.WriteBody, Connection.close, Connection.start, hout] <;> split_ifs <;>
      simp_all [Quiet, hookCalls, pushes, Effect.isHook, Effect.isPush, List.count_append,
        List.count_erase_of_ne]
  | writeBodyDone ec =>
    cases hout : c.m_QMessagesOut <;>
    simp only [step, complete, Connection.WriteBodyDone, Connection.WriteHeader,
      Connection.close, Connection.start, hout] <;> split_ifs <;>
      simp_all [Quiet, hookCalls, pushes, Effect.isHook, Effect.isPush, List.count_append,
        List.count_erase_of_ne]
  | readHeaderDone ec hdr => simp_all [step, complete, Quiet]
  | readBodyDone ec data => simp_all [step, complete, Quiet]


theorem streaming_step {T : Type} (n id : Nat) (c : Connection T) (e : Event T)
    (h : Streaming n id c) : Streaming n id (step c e) := by
  obtain ⟨hown, hid, hchk, hconn, hrv, hhook, hfirst⟩ := h
  have hne : hookCalls c.trace ≠ [] := by rw [hhook]; simp
  have hf := fun b => hookFirst_append_hook c.trace b hne
  have hc := fun b => hookCalls_append c.trace b
  cases e with
  | readValidationDone ec v => simp_all [step, complete, Streaming]
  | connectDone ec => simp_all [step, complete, Streaming]
  | send msg =>
    simp only [step, Connection.Send, Connection.WriteHeader, Connection.start]
    split_ifs <;> simp_all [Streaming]
    simp [hookCalls, Effect.isHook]
  | writeValidationDone ec =>
    simp only [step, complete, Connection.WriteValidationDone, Connection.ReadHeader,
      Connection.close, Connection.start]
    split_ifs <;> simp_all [Streaming]
    simp [hookCalls, Effect.isHook]
  | writeHeaderDone ec =>
    cases hout : c.m_QMessagesOut <;>
    simp only [step, complete, Connection.WriteHeaderDone, Connection.WriteHeader,
      Connection.WriteBody, Connection.close, Connection.start, hout] <;> split_ifs <;>
      simp_all [Streaming] <;> simp [hookCalls, Effect.isHook]
  | writeBodyDone ec =>
    cases hout : c.m_QMessagesOut <;>
    simp only [step, complete, Connection.WriteBodyDone, Connection.WriteHeader,
      Connection.close, Connection.start, hout] <;> split_ifs <;>
      simp_all [Streaming] <;> simp [hookCalls, Effect.isHook]
  | readHeaderDone ec hdr =>
    simp only [step, complete, Connection.ReadHeaderDone, Connection.ReadBody,
      Connection.AddToIncomingMessageQueue, Connection.ReadHeader,
      Connection.close, Connection.start]
    split_ifs <;> simp_all [Streaming] <;> simp [hookCalls, Effect.isHook]
  | readBodyDone ec data =>
    simp only [step, complete, Connection.ReadBodyDone,
      Connection.AddToIncomingMessageQueue, Connection.ReadHeader,
      Connection.close, Connection.start]
    split_ifs <;> simp_all [Streaming] <;> simp [hookCalls, Effect.isHook]

theorem quiet_ignores_response {T : Type} (n id : Nat) (c : Connection T) (ec : Bool)
    (v : Nat) (h : Quiet n id 0 c) : step c (Event.readValidationDone ec v) = c := by
  have hrv : AsyncOp.ReadValidation ∉ c.pending := List.count_eq_zero.1 h.2.2.2.2.2.2.1
  simp [step, complete, hrv]

theorem run_quiet {T : Type} (n id : Nat) (evs : List (Event T)) (c : Connection T)
    (h : Quiet n id 0 c) : Quiet n id 0 (run c evs) := by
  induction evs generalizing c with
  | nil => exact h
  | cons e es ih =>
    by_cases he : ∃ ec v, e = Event.readValidationDone ec v
    · obtain ⟨ec, v, rfl⟩ := he
      simp only [run, quiet_ignores_response n id c ec v h]
      exact ih c h
    · exact ih _ (quiet_step n id 0 c e h (fun ec v hev => he ⟨ec, v, hev⟩))

theorem run_streaming {T : Type} (n id : Nat) (evs : List (Event T)) (c : Connection T)
    (h : Streaming n id c) : Streaming n id (run c evs) := by
  induction evs generalizing c with
  | nil => exact h
  | cons e es ih => exact ih _ (streaming_step n id c e h)

theorem waiting_response {T : Type} (n id : Nat) (c : Connection T) (ec : Bool) (v : Nat)
    (h : Quiet n id 1 c) :
    (ec = false ∧ v % U64 = Scramble n →
        Streaming n id (step c (Event.readValidationDone ec v))) ∧
      (¬ (ec = false ∧ v % U64 = Scramble n) →
        Quiet n id 0 (step c (Event.readValidationDone ec v))) := by
  obtain ⟨hown, hid, hchk, hconn, hrh, hrb, hrv, hhook, hstart, hpush, hq⟩ := h
  have hmem : AsyncOp.ReadValidation ∈ c.pending :=
    List.count_pos_iff.1 (by rw [hrv]; exact Nat.one_pos)
  have hera : AsyncOp.ReadValidation ∉ c.pending.erase AsyncOp.ReadValidation := by
    rw [← List.count_eq_zero, List.count_erase_self, hrv]
  have hfirst := fun b => hookFirst_append_clean c.trace b hhook hstart
  have hc := fun b => hookCalls_append c.trace b
  have hp := fun b => pushes_append c.trace b
  constructor
  · rintro ⟨rfl, hv⟩
    simp [step, complete, hmem, Connection.ReadValidationDone, hown, hchk, hv,
      Connection.ReadHeader, Connection.start, Streaming, hid, hera, hc, hhook, hfirst,
      List.mem_erase_of_ne, hconn]
    simp [hookCalls, Effect.isHook, hookFirst]
  · intro hno
    simp only [step, complete, hmem, Connection.ReadValidationDone, hown, hchk,
      Connection.close, if_true]
    split_ifs <;>
      simp_all [Quiet, hc, hp, List.mem_erase_of_ne] <;>
      simp [hookCalls, pushes, Effect.isHook, Effect.isPush]

theorem firstResponse_cons {T : Type} (e : Event T) (es : List (Event T))
    (he : ∀ ec v, e ≠ Event.readValidationDone ec v) :
    firstResponse (e :: es) = firstResponse es := by
  cases e <;> first | rfl | exact absurd rfl (he _ _)

theorem run_waiting {T : Type} (n id : Nat) (evs : List (Event T)) (c : Connection T)
    (h : Quiet n id 1 c) :
    (ResponseMatched n evs → Streaming n id (run c evs)) ∧
      (¬ ResponseMatched n evs → ∃ rv, Quiet n id rv (run c evs)) := by
  induction evs generalizing c with
  | nil =>
    refine ⟨?_, fun _ => ⟨1, h⟩⟩
    rintro ⟨r, hr, -⟩
    simp [firstResponse] at hr
  | cons e es ih =>
    by_cases he : ∃ ec v, e = Event.readValidationDone ec v
    · obtain ⟨ec, v, rfl⟩ := he
      have hw := waiting_response n id c ec v h
      have hiff : ResponseMatched n (Event.readValidationDone ec v :: es)
          ↔ (ec = false ∧ v % U64 = Scramble n) := by
        simp only [ResponseMatched, firstResponse, Option.some.injEq, Prod.mk.injEq]
        constructor
        · rintro ⟨r, ⟨h1, rfl⟩, h2⟩
          exact ⟨h1, h2⟩
        · rintro ⟨h1, h2⟩
          exact ⟨v, ⟨h1, rfl⟩, h2⟩
      rw [hiff]
      exact ⟨fun hm => run_streaming n id es _ (hw.1 hm),
        fun hm => ⟨0, run_quiet n id es _ (hw.2 hm)⟩⟩
    · have hne : ∀ ec v, e ≠ Event.readValidationDone ec v := fun ec v hev => he ⟨ec, v, hev⟩
      have hm : ResponseMatched n (e :: es) ↔ ResponseMatched n es := by
        simp only [ResponseMatched, firstResponse_cons e es hne]
      rw [hm]
      exact ih _ (quiet_step n id 1 c e h hne)

theorem accepted_quiet (T : Type) [Inhabited T] (n id : Nat) :
    Quiet n id 1 (acceptedConnection T n id) := by
  simp [Quiet, acceptedConnection, Connection.new, Connection.ConnectToClient,
    Connection.WriteValidation, Connection.ReadValidation, Connection.start, Scramble_mod,
    hookCalls, pushes, Effect.isHook, Effect.isPush]

/-- C7: in every run of a server-role connection after `ConnectToClient`, a message is
pushed to the inbound queue only if the handshake response matched; the
`OnClientValidated` hook runs exactly once when the response matched and never when it
did not; and every start of a header read is preceded in the trace by the hook call. -/
theorem no_dispatch_before_validation {T : Type} [Inhabited T] (n id : Nat)
    (evs : List (Event T)) :
    (((run (acceptedConnection T n id) evs).m_QMessagesIn ≠ [] ∨
        pushes (run (acceptedConnection T n id) evs).trace ≠ []) → ResponseMatched n evs) ∧
      (ResponseMatched n evs →
        hookCalls (run (acceptedConnection T n id) evs).trace
          = [Effect.OnClientValidated id]) ∧
      (¬ ResponseMatched n evs →
        hookCalls (run (acceptedConnection T n id) evs).trace = []) ∧
      (∀ pre post,
        (run (acceptedConnection T n id) evs).trace
            = pre ++ Effect.started AsyncOp.ReadHeader :: post →
          Effect.OnClientValidated id ∈ pre) := by
  obtain ⟨hyes, hno⟩ := run_waiting n id evs _ (accepted_quiet T n id)
  refine ⟨?_, fun hm => (hyes hm).2.2.2.2.2.1, ?_, ?_⟩
  · intro hpush
    by_contra hm
    obtain ⟨rv, hq⟩ := hno hm
    rcases hpush with h | h
    · exact h hq.2.2.2.2.2.2.2.2.2.2
    · exact h hq.2.2.2.2.2.2.2.2.2.1
  · intro hm
    obtain ⟨rv, hq⟩ := hno hm
    exact hq.2.2.2.2.2.2.2.1
  · intro pre post hsplit
    by_cases hm : ResponseMatched n evs
    · have hs := hyes hm
      obtain ⟨k, hk⟩ := hookFirst_split _ pre post hs.2.2.2.2.2.2 hsplit
      have hk2 : Effect.OnClientValidated k ∈
          hookCalls (run (acceptedConnection T n id) evs).trace := by
        rw [hookCalls, List.mem_filter, hsplit]
        exact ⟨List.mem_append_left _ hk, rfl⟩
      rw [hs.2.2.2.2.2.1, List.mem_singleton] at hk2
      rw [← hk2]
      exact hk
    · obtain ⟨rv, hq⟩ := hno hm
      have := hq.2.2.2.2.2.2.2.2.1
      rw [hsplit] at this
      exact absurd (List.mem_append_right _ (List.mem_cons_self _ _)) this

/-! ## Theorems: the write chain -/

theorem updateLoop_eq {T : Type} (k : Nat) (hk : k < U32) (q : List (OwnedMessage T))
    (count : Nat) (hc : count ≤ k) :
    UpdateLoop k q count
      = (q.drop (k - count),
         (q.take (k - count)).map (fun m => ServerEffect.OnMessage m.remote m.msg)) := by
  induction q generalizing count with
  | nil => simp [UpdateLoop]
  | cons front rest ih =>
    by_cases hlt : count < k
    · have hmod : (count + 1) % U32 = count + 1 := Nat.mod_eq_of_lt (by omega)
      have hsub : k - count = (k - (count + 1)) + 1 := by omega
      simp only [UpdateLoop, hlt, if_true, hmod, ih (count + 1) (by omega)]
      rw [hsub, List.drop_succ_cons, List.take_succ_cons, List.map_cons]
    · have hsub : k - count = 0 := by omega
      simp [UpdateLoop, hlt, hsub]

/-- C8: with `n` messages `q1 .. qn` in the inbound queue and no concurrent pushes,
`Update(k, false)` returns, having called `OnMessage` exactly `min(k, n)` times, on
`q1 .. q_min(k,n)` in that order, each with its own sender, and leaves the remaining
messages in the queue in their original order. -/
theorem update_dispatch {T : Type} (k : Nat) (hk : k < U32) (q : List (OwnedMessage T)) :
    Update k false q
        = some (q.drop (min k q.length),
                (q.take (min k q.length)).map
                  (fun m => ServerEffect.OnMessage m.remote m.msg)) ∧
      ((q.take (min k q.length)).map
          (fun m => (ServerEffect.OnMessage m.remote m.msg : ServerEffect T))).length
        = min k q.length := by
  constructor
  · simp only [Update, Bool.false_and, Bool.false_eq_true, if_false,
      updateLoop_eq k hk q 0 (Nat.zero_le _), Nat.sub_zero]
    rcases Nat.le_total k q.length with h | h
    · rw [Nat.min_eq_left h]
    · rw [Nat.min_eq_right h, List.drop_of_length_le h, List.take_of_length_le h,
        List.drop_length, List.take_length]
  · simp

/-- The call `Update(2, false)` on a queue of three messages. -/
theorem update_dispatch_witness :
    Update 2 false
        [({ remote := some 1, msg := { header := { id := 10, size := 0 }, body := [] } } :
            OwnedMessage Nat),
         { remote := some 2, msg := { header := { id := 20, size := 1 }, body := [9] } },
         { remote := some 1, msg := { header := { id := 30, size := 0 }, body := [] } }]
      = some
        ([{ remote := some 1, msg := { header := { id := 30, size := 0 }, body := [] } }],
         [ServerEffect.OnMessage (some 1) { header := { id := 10, size := 0 }, body := [] },
          ServerEffect.OnMessage (some 2) { header := { id := 20, size := 1 }, body := [9] }]) :=
  (update_dispatch 2 (by decide) _).1

/-! ## Theorems: the thread-safe queue -/

/-- C9 (evidence): the consumer finds the queue empty in `Empty()`; the producer then
runs `PushBack` to completion, its `notify_one` finding nobody waiting; the consumer
then takes `m_WaitingMutex` and blocks in `wait`.  In the state reached the queue holds
the pushed item, the consumer is blocked, the producer has returned and no thread can
take a step. -/
theorem wait_lost_wakeup :
    tsRun (waitVersusPush (42 : Nat)) [0, 0, 1, 1, 1, 1, 1, 0, 0]
        = some { m_Queue := [42], m_QueueMutex := none, m_WaitingMutex := none,
                 consumer := WaitPc.blocked,
                 producers := [{ pc := PushPc.done, item := 42, front := false }] } ∧
      ∀ tid, tsStep ({ m_Queue := [42], m_QueueMutex := none, m_WaitingMutex := none,
                       consumer := WaitPc.blocked,
                       producers := [{ pc := PushPc.done, item := 42, front := false }] } :
                      TsQueue Nat) tid = none := by
  refine ⟨by decide, ?_⟩
  intro tid
  match tid with
  | 0 => rfl
  | 1 => rfl
  | k + 2 => simp [tsStep, pushStep]
end Network
